import Mathlib

/-!
Verification development for the minecraft-protocol-interceptor repository.

Shallow embedding of the subsystems relevant to the frozen claims:
* the hook pipeline (`src/unnamed/part_004`, i.e. `hook.ts`): `HookList`,
  `Hooks.register`, `Hooks.unregister`, `Hooks.runHooks`;
* the command graph (`src/src/command.ts`): `CommandGraph.serialize`,
  `CommandGraphNode._deserialize` / `_deserializeFinal`, `CommandRegistry`;
* the module system (`src/src/module.ts`): `ModuleRegistry.unload`,
  `ModuleRegistry.reload` bookkeeping;
* the core module (`src/src/core-module/index.ts`): `updateCommandGraph`,
  `to64BitNumber`.

Heap objects (hooks, command-graph nodes, modules) are represented by indices
into an allocation-ordered arena (`List`), and field mutation by functional
update of the arena, so that the pointer surgery of the source is reproduced
exactly, including its slips.
-/

set_option autoImplicit false

namespace MCProxy

/-! ## Hook pipeline (src/unnamed/part_004, `hook.ts`)

A hook object is identified by its index into an arena of `HookNode`s, in
allocation order (`Hooks.register` allocates one `Hook` per call).  The
`_prev` / `_next` pointers become `Option Nat` arena indices.  Of the
`(Direction, type) → HookList` map, only the single entry under consideration
matters to any claim, so `HookState.list` is the (possibly absent, matching a
`Map.get` miss) `HookList` for that entry.  Priorities are `Int` (JS numbers
used as ordering keys). -/

/-- `EventAction` enum of hook.ts lines 11-18. -/
inductive EventAction where
  | Continue
  | CancelHooks
  | Cancel
deriving DecidableEq, Repr

/-- The mutable `Event` of hook.ts lines 21-51: the `action` field and the
packet payload.  The inert `type` / `direction` copies are dropped; `data`
stays opaque (type parameter). -/
structure Event (α : Type) where
  action : EventAction
  data : α
deriving DecidableEq, Repr

/-- Per-hook mutable state: `priority`, `_prev`, `_next` (hook.ts lines 56-84).
The `handler` closure is kept outside the heap (see `Handler`). -/
structure HookNode where
  priority : Int
  prev : Option Nat
  next : Option Nat
deriving DecidableEq, Repr

instance : Inhabited HookNode := ⟨⟨0, none, none⟩⟩

/-- The `HookList` head/tail/length record (hook.ts lines 87-90). -/
structure HookList where
  head : Option Nat
  tail : Option Nat
  length : Int
deriving DecidableEq, Repr

/-- State of the hook subsystem: the arena of all allocated hooks plus the
hook list for the (scope, type) under consideration (`none` = absent from the
map). -/
structure HookState where
  nodes : List HookNode
  list : Option HookList
deriving DecidableEq, Repr

/-- Dereference a hook pointer (reads never go out of range in the source). -/
def getNode (nodes : List HookNode) (i : Nat) : HookNode :=
  nodes.getD i default

/-- `obj._next = v` -/
def setNext (nodes : List HookNode) (i : Nat) (v : Option Nat) : List HookNode :=
  nodes.set i { getNode nodes i with next := v }

/-- `obj._prev = v` -/
def setPrev (nodes : List HookNode) (i : Nat) (v : Option Nat) : List HookNode :=
  nodes.set i { getNode nodes i with prev := v }

/-- `HookList.append` (hook.ts lines 107-120), statement by statement. -/
def listAppend (nodes : List HookNode) (l : HookList) (obj : Nat) :
    List HookNode × HookList :=
  let oldTail := l.tail
  -- this.tail = obj; obj._next = null;
  let nodes := setNext nodes obj none
  match oldTail with
  | some t =>
    -- obj._prev = oldTail; oldTail._next = obj;
    let nodes := setNext (setPrev nodes obj (some t)) t (some obj)
    (nodes, { l with tail := some obj, length := l.length + 1 })
  | none =>
    -- obj._prev = null; this.head = obj;
    let nodes := setPrev nodes obj none
    (nodes, { head := some obj, tail := some obj, length := l.length + 1 })

/-- `HookList.insertAfter` (hook.ts lines 122-135) for a non-null `target`
(the only way `Hooks.register` reaches it; a null target goes to `prepend`).
The source reads:
```
let oldNext = target._next;
target._next = obj;
obj._prev = target;
target._next = oldNext;
if (oldNext) oldNext._prev = obj;
else this.tail = obj;
```
Note that the fourth statement assigns `target._next` a second time (restoring
`oldNext`) and `obj._next` is never assigned, which this embedding reproduces
verbatim. -/
def listInsertAfter (nodes : List HookNode) (l : HookList) (t : Nat) (obj : Nat) :
    List HookNode × HookList :=
  let oldNext := (getNode nodes t).next
  let nodes := setNext nodes t (some obj)
  let nodes := setPrev nodes obj (some t)
  let nodes := setNext nodes t oldNext
  match oldNext with
  | some n => (setPrev nodes n (some obj), { l with length := l.length + 1 })
  | none => (nodes, { l with tail := some obj, length := l.length + 1 })

/-- `HookList.remove` (hook.ts lines 152-163). -/
def listRemove (nodes : List HookNode) (l : HookList) (obj : Nat) :
    List HookNode × HookList :=
  let oldPrev := (getNode nodes obj).prev
  let oldNext := (getNode nodes obj).next
  -- if (oldPrev) oldPrev._next = oldNext; else this.head = oldNext;
  let step1 : List HookNode × Option Nat :=
    match oldPrev with
    | some p => (setNext nodes p oldNext, l.head)
    | none => (nodes, oldNext)
  let nodes := step1.1
  -- if (oldNext) oldNext._prev = oldPrev; else this.tail = oldPrev;
  let step2 : List HookNode × Option Nat :=
    match oldNext with
    | some n => (setPrev nodes n oldPrev, l.tail)
    | none => (nodes, oldPrev)
  let nodes := step2.1
  -- obj._prev = null; obj._next = null; this.length--;
  let nodes := setNext (setPrev nodes obj none) obj none
  (nodes, { head := step1.2, tail := step2.2, length := l.length - 1 })

/-- The search loop of `Hooks.register` (hook.ts line 186):
`while (targetHook && targetHook.priority <= priority) targetHook = targetHook._next;`
Fuel-indexed; callers pass fuel exceeding the arena size, which on the
acyclic chains the source builds is never exhausted. -/
def findTarget (nodes : List HookNode) (priority : Int) : Nat → Option Nat → Option Nat
  | 0, cur => cur
  | fuel + 1, cur =>
    match cur with
    | none => none
    | some t =>
      if (getNode nodes t).priority ≤ priority then
        findTarget nodes priority fuel (getNode nodes t).next
      else cur

/-- `Hooks.register` (hook.ts lines 177-191).  Allocates the new `Hook`
(constructor leaves `_prev = _next = null`) and inserts it; returns the new
state and the hook's arena id. -/
def register (s : HookState) (priority : Int) : HookState × Nat :=
  let id := s.nodes.length
  let nodes := s.nodes ++ [{ priority := priority, prev := none, next := none }]
  match s.list with
  | none =>
    -- hookList = new HookList(); hookList.append(hook); map.set(...)
    let r := listAppend nodes { head := none, tail := none, length := 0 } id
    (⟨r.1, some r.2⟩, id)
  | some l =>
    match findTarget nodes priority (nodes.length + 1) l.head with
    | none =>
      -- if (!targetHook) hookList.append(hook);
      let r := listAppend nodes l id
      (⟨r.1, some r.2⟩, id)
    | some t =>
      -- else hookList.insertAfter(targetHook, hook);
      let r := listInsertAfter nodes l t id
      (⟨r.1, some r.2⟩, id)

/-- `Hooks.unregister` (hook.ts lines 193-196): fetch the list for the hook's
(scope, type) and `remove`.  The non-null assertion `hookList!` holds whenever
the hook was registered; an absent list leaves the state unchanged. -/
def unregisterHook (s : HookState) (i : Nat) : HookState :=
  match s.list with
  | none => s
  | some l =>
    let r := listRemove s.nodes l i
    ⟨r.1, some r.2⟩

/-- A hook handler: receives the event, may mutate the hook structures (e.g.
`unregister`) and the event (e.g. `setAction`); modelled as a function on
both. -/
def Handler (α : Type) : Type :=
  Event α → HookState → HookState × Event α

/-- The traversal loop of `Hooks.runHooks` (hook.ts lines 209-221):
`for (let hook = hookList.head; hook; hook = hook?._next) { await handler; switch(action) ... }`.
The update expression `hook = hook?._next` runs after the body, so the next
pointer is read from the post-handler heap.  Instrumented with a trace of the
hook ids whose handlers ran (second component); fuel-indexed (callers pass
fuel at least the chain length).  `EventAction` is a closed enum, so the
`default: throw` arm of the switch is unreachable and has no counterpart. -/
def runLoop {α : Type} (η : Nat → Handler α) :
    Nat → HookState → Option Nat → Event α → List Nat → Bool × List Nat × HookState
  | _, s, none, _, tr => (true, tr, s)
  | 0, s, some _, _, tr => (true, tr, s)
  | fuel + 1, s, some i, e, tr =>
    let r := η i e s
    match (r.2).action with
    | .Continue => runLoop η fuel r.1 (getNode (r.1).nodes i).next r.2 (tr ++ [i])
    | .CancelHooks => (true, tr ++ [i], r.1)
    | .Cancel => (false, tr ++ [i], r.1)

/-- `Hooks.runHooks` (hook.ts lines 205-223): absent list returns `true`
immediately; otherwise a fresh event (action `Continue`) traverses the chain
from `head`.  Returns the source's boolean result paired with the
instrumentation trace of handlers that ran. -/
def runHooks {α : Type} (η : Nat → Handler α) (fuel : Nat) (s : HookState) (d : α) :
    Bool × List Nat :=
  match s.list with
  | none => (true, [])
  | some l =>
    let r := runLoop η fuel s l.head { action := .Continue, data := d } []
    (r.1, r.2.1)

/-- The forward chain of a hook list: starting from pointer `cur`, following
`_next` visits exactly the ids in `ids` and then `null`. -/
def FwdChain (nodes : List HookNode) : Option Nat → List Nat → Prop
  | cur, [] => cur = none
  | cur, i :: rest => cur = some i ∧ FwdChain nodes (getNode nodes i).next rest

/-- The hook list for the (scope, type) under consideration is present and its
forward chain is `ids`. -/
def Represents (s : HookState) (ids : List Nat) : Prop :=
  ∃ l, s.list = some l ∧ FwdChain s.nodes l.head ids

/-! ## Command graph (src/src/command.ts)

`CommandGraphNode` objects are identified by indices into an arena (`children`
is a JS `Set` of object references iterated in insertion order, so it becomes
an insertion-ordered `List Nat` of arena ids).  The opaque `properties : any`
payload is modelled as `Option Nat`. -/

/-- `CommandNodeType` (command.ts lines 115-122). -/
inductive CommandNodeType where
  | Root
  | Literal
  | Argument
deriving DecidableEq, Repr

/-- `CommandNodeFlags` (command.ts lines 125-137). -/
structure CommandNodeFlags where
  nodeType : CommandNodeType
  isExecutable : Bool
  hasRedirect : Bool
  hasCustomSuggestions : Bool
deriving DecidableEq, Repr

/-- A `CommandGraphNode` (command.ts lines 151-184): flags, insertion-ordered
children set, redirect pointer, and the optional name/parser/properties/
suggestion payload. -/
structure CGNode where
  flags : CommandNodeFlags
  children : List Nat
  redirectNode : Option Nat
  name : Option String
  parserName : Option String
  properties : Option Nat
  suggestionType : Option String
deriving DecidableEq, Repr

instance : Inhabited CGNode :=
  ⟨⟨⟨.Literal, true, false, false⟩, [], none, none, none, none, none⟩⟩

/-- Dereference a command-graph node pointer. -/
def getCG (arena : List CGNode) (i : Nat) : CGNode :=
  arena.getD i default

/-- The packed flags of `SerializedCommandNode` (command.ts lines 96-102);
field names follow the snake_case wire keys. -/
structure SerializedFlags where
  unused : Nat
  hasCustomSuggestions : Nat
  hasRedirectNode : Nat
  hasCommand : Nat
  commandNodeType : Nat
deriving DecidableEq, Repr

/-- `extraNodeData` of `SerializedCommandNode` (command.ts lines 105-110):
absent for Root, a bare string for Literal, a record for Argument. -/
inductive ExtraNodeData where
  | absent
  | literalName (nm : String)
  | argumentData (nm : String) (parserId : String) (properties : Option Nat)
      (suggests : Option String)
deriving DecidableEq, Repr

/-- `SerializedCommandNode` (command.ts lines 94-112). -/
structure SNode where
  flags : SerializedFlags
  children : List Nat
  redirectNode : Option Nat
  extraNodeData : ExtraNodeData
deriving DecidableEq, Repr

/-- Numeric value of a node type on the wire. -/
def nodeTypeNum : CommandNodeType → Nat
  | .Root => 0
  | .Literal => 1
  | .Argument => 2

/-- `CommandGraphNode._serialize` (command.ts lines 243-284).  `none` models
the thrown `Error` for a Literal without a name or an Argument without
name/parser (JS truthiness: the empty string also fails `if (!this.name)`).
`children` and `redirectNode` are filled in later by `_serializeFinal`. -/
def nodeSerialize (n : CGNode) : Option SNode :=
  let extra : Option ExtraNodeData :=
    match n.flags.nodeType with
    | .Root => some .absent
    | .Literal =>
      match n.name with
      | some nm => if nm = "" then none else some (.literalName nm)
      | none => none
    | .Argument =>
      match n.name, n.parserName with
      | some nm, some p =>
        if nm = "" ∨ p = "" then none
        else some (.argumentData nm p n.properties n.suggestionType)
      | _, _ => none
  match extra with
  | none => none
  | some extra =>
    some
      { flags :=
          { unused := 0
            hasCustomSuggestions := if n.flags.hasCustomSuggestions then 1 else 0
            hasRedirectNode := if n.flags.hasRedirect then 1 else 0
            hasCommand := if n.flags.isExecutable then 1 else 0
            commandNodeType := nodeTypeNum n.flags.nodeType }
        children := []
        redirectNode := none
        extraNodeData := extra }

/-- `queue.pop()`: the deque is used with `unshift` (add at front) and `pop`
(remove at back), i.e. FIFO; the queue is a `List Nat` with its front at the
head. -/
def popBack (q : List Nat) : Option (Nat × List Nat) :=
  match q.reverse with
  | [] => none
  | x :: rest => some (x, rest.reverse)

/-- The `while (queue.length)` traversal of `CommandGraph.serialize`
(command.ts lines 364-371): pop a node, append it to the output,
`unshift` each child in order, then the redirect target if present.  There is
no visited-set check of any kind in the source.  Fuel-indexed: `none` means
the loop was still running when the fuel ran out. -/
def serializeLoop (arena : List CGNode) : Nat → List Nat → List Nat → Option (List Nat)
  | 0, queue, out => if queue.isEmpty then some out else none
  | fuel + 1, queue, out =>
    match popBack queue with
    | none => some out
    | some (node, rest) =>
      let q := (getCG arena node).children.foldl (fun acc c => c :: acc) rest
      let q :=
        match (getCG arena node).redirectNode with
        | some r => r :: q
        | none => q
      serializeLoop arena fuel q (out ++ [node])

/-- The final value of `node._serializedId` after the id-assignment loop
(command.ts lines 373-375): the loop writes every position at which the node
occurs, so the last occurrence wins. -/
def lastIdxOf (out : List Nat) (n : Nat) : Option Nat :=
  match out.reverse.findIdx? (fun x => x == n) with
  | some j => some (out.length - 1 - j)
  | none => none

/-- `CommandGraphNode._serializeFinal` (command.ts lines 290-297): write the
redirect id (`?? undefined` keeps id `0`) and push each child's id.  The
non-null assertion `child._serializedId!` holds because every child of a
traversed node was itself enqueued and therefore appears in `out`; `getD 0`
realizes the assertion. -/
def serializeFinalNode (arena : List CGNode) (out : List Nat) (i : Nat) (s : SNode) :
    SNode :=
  let n := getCG arena i
  let s :=
    match n.redirectNode with
    | some r => { s with redirectNode := lastIdxOf out r }
    | none => s
  { s with children := n.children.map (fun c => (lastIdxOf out c).getD 0) }

/-- `CommandGraph.serialize` (command.ts lines 360-383): traverse, assign ids,
`_serialize` each occurrence, then `_serializeFinal` to write links.  `none`
if the traversal fuel ran out or `_serialize` threw. -/
def serializeGraph (arena : List CGNode) (root : Nat) (fuel : Nat) :
    Option (List SNode) :=
  match serializeLoop arena fuel [root] [] with
  | none => none
  | some out =>
    match out.mapM (fun i => nodeSerialize (getCG arena i)) with
    | none => none
    | some ser => some (List.zipWith (fun i s => serializeFinalNode arena out i s) out ser)

/-- `flags.command_node_type as CommandNodeType` on deserialization
(command.ts line 309). -/
def numToNodeType : Nat → CommandNodeType
  | 0 => .Root
  | 1 => .Literal
  | _ => .Argument

/-- `CommandGraphNode._deserialize` (command.ts lines 303-324): decode flags
(`Boolean(n)` is `n ≠ 0`) and `extraNodeData` (skipped entirely when falsy,
which includes the empty string); returns the node together with the staged
`_serializedRedirectNodeId` and `_serializedChildrenIds`. -/
def nodeDeserialize (s : SNode) : CGNode × Option Nat × List Nat :=
  let flags : CommandNodeFlags :=
    { hasCustomSuggestions := s.flags.hasCustomSuggestions ≠ 0
      hasRedirect := s.flags.hasRedirectNode ≠ 0
      isExecutable := s.flags.hasCommand ≠ 0
      nodeType := numToNodeType s.flags.commandNodeType }
  let payload : Option String × Option String × Option Nat × Option String :=
    match s.extraNodeData with
    | .absent => (none, none, none, none)
    | .literalName nm => if nm = "" then (none, none, none, none) else (some nm, none, none, none)
    | .argumentData nm p props sugg => (some nm, some p, props, sugg)
  (⟨flags, [], none, payload.1, payload.2.1, payload.2.2.1, payload.2.2.2⟩,
    s.redirectNode, s.children)

/-- `CommandGraphNode._deserializeFinal` (command.ts lines 330-339) applied to
one staged node.  The source guards the redirect rewrite with
`if (this._serializedRedirectNodeId)`, a JS truthiness test that is false both
for `null` and for the number `0`; this embedding reproduces that: a redirect
id of `0` is dropped and `redirectNode` stays `null`. -/
def deserializeFinalNode (staged : CGNode × Option Nat × List Nat) : CGNode :=
  let n := staged.1
  let n :=
    match staged.2.1 with
    | some r => if r = 0 then n else { n with redirectNode := some r }
    | none => n
  { n with children := staged.2.2 }

/-- `CommandGraph.deserialize` (command.ts lines 389-393): stage one node per
entry, rehydrate links, and make `root` the entry at the given index (arena
ids coincide with positions in the serialized array). -/
def deserializeGraph (ser : List SNode) (root : Nat) : List CGNode × Nat :=
  (ser.map (fun s => deserializeFinalNode (nodeDeserialize s)), root)

/-! ## Module lifecycle (src/src/module.ts) -/

/-- Which `_unload` implementation a module carries: the core module
(src/src/core-module/index.ts lines 291-296) or an ordinary module whose
`_unload` succeeds. -/
inductive ModuleKind where
  | core
  | plain
deriving DecidableEq, Repr

/-- The error paths of module load/unload. -/
inductive ModuleError where
  /-- `throw new Error('no such module')` (module.ts line 282) -/
  | noSuchModule
  /-- `throw new Error('module is already unloaded')` (module.ts line 283) -/
  | alreadyUnloaded
  /-- `throw new Error('Cannot unload the core module!')`
      (core-module/index.ts line 294) -/
  | cannotUnloadCore
deriving DecidableEq, Repr

/-- A module as `ModuleRegistry.unload` sees it: name, `_unload` behavior,
`loaded` flag, and the owned hook/command sets released on unload. -/
structure ProxyModule where
  name : String
  kind : ModuleKind
  loaded : Bool
  hooks : List Nat
  commands : List Nat
deriving DecidableEq, Repr

/-- The module's `_unload(reloading)` implementation.  The core module's
(core-module/index.ts lines 291-296) throws unless `reloading`; a plain
module's succeeds. -/
def moduleUnloadInner (m : ProxyModule) (reloading : Bool) : Except ModuleError Unit :=
  match m.kind with
  | .core => if reloading then .ok () else .error .cannotUnloadCore
  | .plain => .ok ()

/-- `Module.unload` (module.ts lines 83-88): `await this._unload(reloading)`,
then unregister every owned hook and command and clear `loaded`.  A thrown
`_unload` propagates before any release happens. -/
def moduleUnload (m : ProxyModule) (reloading : Bool) : Except ModuleError ProxyModule :=
  match moduleUnloadInner m reloading with
  | .error e => .error e
  | .ok _ => .ok { m with hooks := [], commands := [], loaded := false }

/-- `ModuleRegistry.unload` (module.ts lines 279-285):
```
let module = this.modules.get(moduleName);
if (!module) throw new Error('no such module');
if (module.loaded) throw new Error('module is already unloaded');
await module.unload(false);
```
The guard on line 283 tests `module.loaded` (not its negation), which this
embedding reproduces verbatim. -/
def registryUnload (modules : List (String × ProxyModule)) (moduleName : String) :
    Except ModuleError (List (String × ProxyModule)) :=
  match modules.lookup moduleName with
  | none => .error .noSuchModule
  | some m =>
    if m.loaded then .error .alreadyUnloaded
    else
      match moduleUnload m false with
      | .error e => .error e
      | .ok m' => .ok (modules.map (fun p => if p.1 = moduleName then (p.1, m') else p))

/-! ### Reload version-chain bookkeeping (module.ts lines 219-264)

Module instances live in an allocation-ordered arena; `reload` allocates the
new instance and rewires `current` / `previous`.  The surrounding work of
`ModuleRegistry.reload` (require-cache eviction, re-import, `unload(true)`,
`migrateState`, `load(true)`, registry-map update) touches neither `current`
nor `previous` and is outside every claim about them, so the embedding keeps
the bookkeeping statements only (lines 253-258). -/

/-- The `current` / `previous` version-chain fields of one `Module` instance
(module.ts lines 28-33; both `null` on construction). -/
structure ModuleVC where
  current : Option Nat
  previous : Option Nat
deriving DecidableEq, Repr

instance : Inhabited ModuleVC := ⟨⟨none, none⟩⟩

/-- Dereference a module pointer. -/
def getVC (arena : List ModuleVC) (i : Nat) : ModuleVC :=
  arena.getD i default

/-- `m.current = v` -/
def setCurrent (arena : List ModuleVC) (i : Nat) (v : Option Nat) : List ModuleVC :=
  arena.set i { getVC arena i with current := v }

/-- `m.previous = v` -/
def setPrevious (arena : List ModuleVC) (i : Nat) (v : Option Nat) : List ModuleVC :=
  arena.set i { getVC arena i with previous := v }

/-- The bookkeeping steps of `ModuleRegistry.reload` (module.ts lines
248-258): allocate the new instance (`new moduleClass()`, both chain fields
null), then
```
oldModule.current = newModule;
if (oldModule.previous) {
  oldModule.previous.current = newModule;
  oldModule.previous = null; // allow old modules to be gc'd
}
newModule.previous = oldModule;
```
Returns the new arena and the new module's id. -/
def reloadBookkeeping (arena : List ModuleVC) (old : Nat) : List ModuleVC × Nat :=
  let newId := arena.length
  let arena := arena ++ [⟨none, none⟩]
  let arena := setCurrent arena old (some newId)
  let arena :=
    match (getVC arena old).previous with
    | some p => setPrevious (setCurrent arena p (some newId)) old none
    | none => arena
  let arena := setPrevious arena newId (some old)
  (arena, newId)

/-! ## Core module (src/src/core-module/index.ts) -/

/-- `to64BitNumber` (core-module/index.ts lines 17-19):
`[Math.floor(n / (2 ** 32)), n >>> 0]`.  For a natural number below `2 ^ 53`
the float division by `2 ^ 32` is exact (the quotient's significand still
fits in 53 bits), so `Math.floor` computes the natural-number quotient, and
`>>> 0` is ToUint32, i.e. reduction mod `2 ^ 32`. -/
def to64BitNumber (n : Nat) : Nat × Nat :=
  (n / 2 ^ 32, n % 2 ^ 32)

/-- The part of the core module's state read and written by
`updateCommandGraph`: the cached graph (`null` after `serverDisconnected`),
its root's children as an identity set of arena ids, and the
`localCommandNodes` identity set. -/
structure CoreGraphState where
  rootChildren : Finset Nat
deriving DecidableEq

structure CoreModuleState where
  commandGraph : Option CoreGraphState
  localCommandNodes : Finset Nat
deriving DecidableEq

/-- `CommandRegistry.getAutocompleteNodes` (command.ts lines 475-484): empty
unless the prefix starts with `'/'`; otherwise the set of non-null
`autocomplete` roots of the registered commands.  The registry's commands are
given by their optional autocomplete arena ids in map-iteration order. -/
def getAutocompleteNodes (pfx : String) (commands : List (Option Nat)) : Finset Nat :=
  if ¬ pfx.startsWith "/" then ∅
  else
    commands.foldl
      (fun out a =>
        match a with
        | some n => insert n out
        | none => out)
      ∅

/-- `CoreModule.updateCommandGraph` (core-module/index.ts lines 73-86): no-op
without a cached graph; otherwise delete every previously merged local node
from `graph.root.children`, recompute `localCommandNodes` from the Command
Registry, and add each new node.  (The `if (!this.commandGraph.root) throw`
guard can never fire: every `CommandGraph` is constructed with a root.) -/
def updateCommandGraph (pfx : String) (commands : List (Option Nat))
    (s : CoreModuleState) : CoreModuleState :=
  match s.commandGraph with
  | none => s
  | some g =>
    let cleared := g.rootChildren \ s.localCommandNodes
    let newLocal := getAutocompleteNodes pfx commands
    { commandGraph := some ⟨cleared ∪ newLocal⟩, localCommandNodes := newLocal }

/-! ## Command registry registration (src/src/command.ts lines 420-435) -/

/-- JS `String.prototype.toLowerCase()`, modelled as a per-character lowering
(command names are ASCII; written over the character list so the kernel can
evaluate it). -/
def jsToLowerCase (s : String) : String := ⟨s.data.map Char.toLower⟩

/-- The caller-supplied `CommandDescriptor` as `register` mutates it: its
`name` field and the `name` of its autocomplete root node, if any (the
descriptor and the created `Command` share both objects). -/
structure CmdDescriptor where
  name : String
  autocompleteName : Option String
deriving DecidableEq, Repr

/-- The observable outcome of `CommandRegistry.register`: the final state of
the caller's descriptor, the final `commands` map (insertion-ordered key
list), and whether `Error('command already exists')` was thrown. -/
structure RegisterOutcome where
  descriptor : CmdDescriptor
  commands : List (String × CmdDescriptor)
  threw : Bool
deriving DecidableEq, Repr

/-- `CommandRegistry.register` (command.ts lines 420-435):
```
descriptor.name = descriptor.name.toLowerCase();
if (this.commands.has(descriptor.name)) throw new Error('command already exists');
let command = new Command(this, descriptor);
if (command.autocomplete?.name && this.prefix.startsWith('/') &&
    !command.autocomplete.name.startsWith(this.prefix.slice(1)))
  command.autocomplete.name = this.prefix.slice(1) + command.autocomplete.name;
this.commands.set(command.name, command);
```
The truthiness test `command.autocomplete?.name` fails for a null
autocomplete and for an empty name. -/
def registerCommand (pfx : String) (commands : List (String × CmdDescriptor))
    (d : CmdDescriptor) : RegisterOutcome :=
  let d := { d with name := jsToLowerCase d.name }
  if (commands.lookup d.name).isSome then
    { descriptor := d, commands := commands, threw := true }
  else
    let d :=
      match d.autocompleteName with
      | some an =>
        if an ≠ "" ∧ pfx.startsWith "/" ∧ ¬ an.startsWith (pfx.drop 1) then
          { d with autocompleteName := some (pfx.drop 1 ++ an) }
        else d
      | none => d
    { descriptor := d, commands := commands ++ [(d.name, d)], threw := false }

/-! ## Concrete scenario states -/

/-- A handler that neither touches the hook structures nor the event. -/
def idHandler {α : Type} : Handler α := fun e st => (st, e)

/-- S5 of the spec: `register` at priorities 100, 50, 100 in that order on one
(scope, type), starting from an empty `Hooks` table (ids 0 = h1, 1 = h2,
2 = h3). -/
def s5State : HookState :=
  (register (register (register ⟨[], none⟩ 100).1 50).1 100).1

/-- A two-hook list 0 → 1 as built by two `register` calls at equal
priority would be under a correct insert (used to exercise `runHooks`
directly). -/
def c3State : HookState :=
  ⟨[⟨100, none, some 1⟩, ⟨100, some 0, none⟩], some ⟨some 0, some 1, 2⟩⟩

/-- Handlers for the self-unregistration counterexample: hook 0 unregisters
itself (`this.parent.unregister(this)`), hook 1 does nothing. -/
def c3Eta : Nat → Handler Unit := fun i =>
  if i = 0 then fun e st => (unregisterHook st 0, e) else idHandler

/-- A three-hook list 0 → 1 → 2. -/
def chain3State : HookState :=
  ⟨[⟨100, none, some 1⟩, ⟨100, some 0, some 2⟩, ⟨100, some 1, none⟩],
    some ⟨some 0, some 2, 3⟩⟩

/-- Handlers where hook 0 unregisters hook 1 and everyone else does
nothing. -/
def c3wEta : Nat → Handler Unit := fun i =>
  if i = 0 then fun e st => (unregisterHook st 1, e) else idHandler

/-- Action profile for the cancellation witness: hook 1 cancels, others
continue. -/
def c5Acts : Nat → EventAction := fun i => if i = 1 then .Cancel else .Continue

/-- Handlers realizing `c5Acts` without touching the hook structures. -/
def c5Eta : Nat → Handler Unit := fun i => fun e st => (st, { e with action := c5Acts i })

/-- S6 of the spec as an arena: node 0 the root with one child, node 1 the
`execute` literal whose redirect target is the root. -/
def s6Arena : List CGNode :=
  [⟨⟨.Root, false, false, false⟩, [1], none, none, none, none, none⟩,
    ⟨⟨.Literal, false, true, false⟩, [], some 0, some "execute", none, none, none⟩]

/-- The wire form of the S6 graph (what a deduplicating serializer produces):
entry 0 the root with child 1, entry 1 the `execute` literal with redirect
index 0. -/
def s6Wire : List SNode :=
  [⟨⟨0, 0, 0, 0, 0⟩, [1], none, .absent⟩,
    ⟨⟨0, 0, 1, 0, 1⟩, [], some 0, .literalName "execute"⟩]

/-- A DAG in which node 3 is shared by the two parents 1 and 2 (both children
of the root 0). -/
def c6Arena : List CGNode :=
  [⟨⟨.Root, false, false, false⟩, [1, 2], none, none, none, none, none⟩,
    ⟨⟨.Literal, true, false, false⟩, [3], none, some "a", none, none, none⟩,
    ⟨⟨.Literal, true, false, false⟩, [3], none, some "b", none, none, none⟩,
    ⟨⟨.Literal, true, false, false⟩, [], none, some "s", none, none, none⟩]

/-- A registry with one loaded core module owning a hook and a command. -/
def c4CoreLoaded : ProxyModule := ⟨"core", .core, true, [0], [0]⟩

/-- A loaded ordinary module. -/
def c4Plain : ProxyModule := ⟨"m", .plain, true, [], []⟩

/-! ## Helper lemmas: hook heap accesses -/

theorem length_setNext (nodes : List HookNode) (i : Nat) (v : Option Nat) :
    (setNext nodes i v).length = nodes.length := by
  simp [setNext]

theorem length_setPrev (nodes : List HookNode) (i : Nat) (v : Option Nat) :
    (setPrev nodes i v).length = nodes.length := by
  simp [setPrev]

theorem getNode_setNext_self (nodes : List HookNode) (i : Nat) (v : Option Nat)
    (h : i < nodes.length) :
    getNode (setNext nodes i v) i = { getNode nodes i with next := v } := by
  simp [getNode, setNext, List.getD_eq_getElem?_getD, List.getElem?_set_eq_of_lt _ h]

theorem getNode_setNext_ne (nodes : List HookNode) (i j : Nat) (v : Option Nat)
    (h : i ≠ j) :
    getNode (setNext nodes i v) j = getNode nodes j := by
  simp [getNode, setNext, List.getD_eq_getElem?_getD, List.getElem?_set_ne h]

theorem getNode_setPrev_ne (nodes : List HookNode) (i j : Nat) (v : Option Nat)
    (h : i ≠ j) :
    getNode (setPrev nodes i v) j = getNode nodes j := by
  simp [getNode, setPrev, List.getD_eq_getElem?_getD, List.getElem?_set_ne h]

/-- A `_prev` write never changes any `_next` field. -/
theorem next_setPrev (nodes : List HookNode) (i j : Nat) (v : Option Nat) :
    (getNode (setPrev nodes i v) j).next = (getNode nodes j).next := by
  by_cases h : i = j
  · subst h
    by_cases hlt : i < nodes.length
    · simp [getNode, setPrev, List.getD_eq_getElem?_getD, List.getElem?_set_eq_of_lt _ hlt]
    · have : nodes.set i { getNode nodes i with prev := v } = nodes :=
        List.set_eq_of_length_le (by omega)
      simp [setPrev, this]
  · rw [getNode_setPrev_ne nodes i j v h]

/-- `setNext` at `i` leaves the `_next` field of every other node alone. -/
theorem next_setNext_ne (nodes : List HookNode) (i j : Nat) (v : Option Nat)
    (h : i ≠ j) :
    (getNode (setNext nodes i v) j).next = (getNode nodes j).next := by
  rw [getNode_setNext_ne nodes i j v h]

theorem next_setNext_self (nodes : List HookNode) (i : Nat) (v : Option Nat)
    (h : i < nodes.length) :
    (getNode (setNext nodes i v) i).next = v := by
  rw [getNode_setNext_self nodes i v h]

/-- A forward chain depends only on the `_next` fields of its members. -/
theorem fwdChain_congr (nodes nodes' : List HookNode) (ids : List Nat)
    (h : ∀ i ∈ ids, (getNode nodes' i).next = (getNode nodes i).next) :
    ∀ cur, FwdChain nodes cur ids → FwdChain nodes' cur ids := by
  induction ids with
  | nil => intro cur hch; exact hch
  | cons i rest ih =>
    intro cur hch
    obtain ⟨hcur, hrest⟩ := hch
    refine ⟨hcur, ?_⟩
    rw [h i (by simp)]
    exact ih (fun j hj => h j (by simp [hj])) _ hrest

/-! ## Helper lemmas: the `runHooks` traversal -/

theorem runLoop_none {α : Type} (η : Nat → Handler α) (fuel : Nat) (s : HookState)
    (e : Event α) (tr : List Nat) :
    runLoop η fuel s none e tr = (true, tr, s) := by
  cases fuel <;> rfl

theorem runLoop_cons {α : Type} (η : Nat → Handler α) (f : Nat) (s : HookState)
    (i : Nat) (e : Event α) (tr : List Nat) :
    runLoop η (f + 1) s (some i) e tr =
      match ((η i e s).2).action with
      | .Continue =>
        runLoop η f (η i e s).1 (getNode ((η i e s).1).nodes i).next (η i e s).2 (tr ++ [i])
      | .CancelHooks => (true, tr ++ [i], (η i e s).1)
      | .Cancel => (false, tr ++ [i], (η i e s).1) := rfl

/-- Traversal over a chain whose handlers all preserve the hook structures and
leave the action `Continue` visits every hook and returns `true`. -/
theorem runLoop_all_continue {α : Type} (η : Nat → Handler α) (ids : List Nat) :
    ∀ (s : HookState) (fuel : Nat) (cur : Option Nat) (e : Event α) (tr : List Nat),
      FwdChain s.nodes cur ids → ids.length ≤ fuel → e.action = .Continue →
      (∀ i ∈ ids, ∀ (e' : Event α) (st : HookState), (η i e' st).1 = st) →
      (∀ i ∈ ids, ∀ (e' : Event α) (st : HookState),
        e'.action = .Continue → ((η i e' st).2).action = .Continue) →
      runLoop η fuel s cur e tr = (true, tr ++ ids, s) := by
  induction ids with
  | nil =>
    intro s fuel cur e tr hch _ _ _ _
    have hcur : cur = none := hch
    subst hcur
    simp [runLoop_none]
  | cons i rest ih =>
    intro s fuel cur e tr hch hfuel hact hpres hcont
    obtain ⟨hcur, hrest⟩ := hch
    subst hcur
    cases fuel with
    | zero => simp at hfuel
    | succ f =>
      have h1 : (η i e s).1 = s := hpres i (by simp) e s
      have h2 : ((η i e s).2).action = .Continue := hcont i (by simp) e s hact
      rw [runLoop_cons, h2]
      simp only [h1]
      rw [ih s f _ (η i e s).2 (tr ++ [i]) hrest (by simpa using hfuel) h2
        (fun j hj => hpres j (by simp [hj])) (fun j hj => hcont j (by simp [hj]))]
      simp

/-- Traversal over `pre ++ j :: rest` where the handlers of `pre` preserve
structure and continue, and `j`'s handler preserves structure but sets
`stopAct ≠ Continue`: the hooks of `pre` and `j` run, nothing after, and the
result is `false` exactly for `Cancel`. -/
theorem runLoop_stops {α : Type} (η : Nat → Handler α) (stopAct : EventAction)
    (pre : List Nat) (j : Nat) :
    ∀ (rest : List Nat) (s : HookState) (fuel : Nat) (cur : Option Nat)
      (e : Event α) (tr : List Nat),
      FwdChain s.nodes cur (pre ++ j :: rest) → (pre ++ j :: rest).length ≤ fuel →
      e.action = .Continue → stopAct ≠ .Continue →
      (∀ i ∈ pre, ∀ (e' : Event α) (st : HookState), (η i e' st).1 = st) →
      (∀ i ∈ pre, ∀ (e' : Event α) (st : HookState),
        e'.action = .Continue → ((η i e' st).2).action = .Continue) →
      (∀ (e' : Event α) (st : HookState), (η j e' st).1 = st) →
      (∀ (e' : Event α) (st : HookState),
        e'.action = .Continue → ((η j e' st).2).action = stopAct) →
      runLoop η fuel s cur e tr =
        (if stopAct = .Cancel then false else true, tr ++ pre ++ [j], s) := by
  induction pre with
  | nil =>
    intro rest s fuel cur e tr hch hfuel hact hstop _ _ hjpres hjact
    obtain ⟨hcur, _⟩ := hch
    subst hcur
    cases fuel with
    | zero => simp at hfuel
    | succ f =>
      have h1 : (η j e s).1 = s := hjpres e s
      have h2 : ((η j e s).2).action = stopAct := hjact e s hact
      rw [runLoop_cons, h2]
      cases stopAct with
      | Continue => exact absurd rfl hstop
      | CancelHooks => simp [h1]
      | Cancel => simp [h1]
  | cons i pre' ih =>
    intro rest s fuel cur e tr hch hfuel hact hstop hpres hcont hjpres hjact
    obtain ⟨hcur, hrest⟩ := hch
    subst hcur
    cases fuel with
    | zero => simp at hfuel
    | succ f =>
      have h1 : (η i e s).1 = s := hpres i (by simp) e s
      have h2 : ((η i e s).2).action = .Continue := hcont i (by simp) e s hact
      rw [runLoop_cons, h2]
      simp only [h1]
      rw [ih rest s f _ (η i e s).2 (tr ++ [i]) hrest (by simpa using hfuel) h2 hstop
        (fun k hk => hpres k (by simp [hk])) (fun k hk => hcont k (by simp [hk]))
        hjpres hjact]
      simp

/-- Traversal consumes an identity-handler prefix without changing state or
event, leaving a pointer whose chain is the suffix. -/
theorem runLoop_id_prefix {α : Type} (η : Nat → Handler α) (pre : List Nat) :
    ∀ (suf : List Nat) (s : HookState) (cur : Option Nat) (e : Event α) (tr : List Nat),
      FwdChain s.nodes cur (pre ++ suf) → e.action = .Continue →
      (∀ i ∈ pre, ∀ (e' : Event α) (st : HookState), η i e' st = (st, e')) →
      ∃ cur', FwdChain s.nodes cur' suf ∧
        ∀ fuel, runLoop η (pre.length + fuel) s cur e tr =
          runLoop η fuel s cur' e (tr ++ pre) := by
  induction pre with
  | nil =>
    intro suf s cur e tr hch _ _
    exact ⟨cur, hch, fun fuel => by simp⟩
  | cons i pre' ih =>
    intro suf s cur e tr hch hact hid
    obtain ⟨hcur, hrest⟩ := hch
    subst hcur
    obtain ⟨cur', hchain', heq⟩ :=
      ih suf s _ e (tr ++ [i]) hrest hact (fun k hk => hid k (by simp [hk]))
    refine ⟨cur', hchain', fun fuel => ?_⟩
    have hstep : (i :: pre').length + fuel = (pre'.length + fuel) + 1 := by
      simp only [List.length_cons]
      omega
    rw [hstep, runLoop_cons, hid i (by simp) e s]
    simp only [hact]
    rw [heq fuel]
    simp

theorem runHooks_some {α : Type} (η : Nat → Handler α) (fuel : Nat) (s : HookState)
    (l : HookList) (d : α) (hl : s.list = some l) :
    runHooks η fuel s d =
      ((runLoop η fuel s l.head { action := .Continue, data := d } []).1,
        (runLoop η fuel s l.head { action := .Continue, data := d } []).2.1) := by
  simp [runHooks, hl]

/-- Effect of `HookList.remove b` on the forward pointers when `b`'s back
pointer is `a`: `a._next` becomes `b`'s old `_next`, and the `_next` of every
node other than `a` and `b` is untouched. -/
theorem listRemove_next_facts (nodes : List HookNode) (l : HookList) (a b : Nat)
    (ha : a < nodes.length) (hab : a ≠ b)
    (hbprev : (getNode nodes b).prev = some a) :
    (getNode (listRemove nodes l b).1 a).next = (getNode nodes b).next
    ∧ ∀ j, j ≠ a → j ≠ b →
      (getNode (listRemove nodes l b).1 j).next = (getNode nodes j).next := by
  cases hnext : (getNode nodes b).next with
  | none =>
    simp only [listRemove, hbprev, hnext]
    constructor
    · rw [next_setNext_ne _ b a _ (Ne.symm hab), next_setPrev,
        next_setNext_self _ a _ (by omega)]
    · intro j hja hjb
      rw [next_setNext_ne _ b j _ (Ne.symm hjb), next_setPrev,
        next_setNext_ne _ a j _ (Ne.symm hja)]
  | some n =>
    simp only [listRemove, hbprev, hnext]
    constructor
    · rw [next_setNext_ne _ b a _ (Ne.symm hab), next_setPrev, next_setPrev,
        next_setNext_self _ a _ (by omega)]
    · intro j hja hjb
      rw [next_setNext_ne _ b j _ (Ne.symm hjb), next_setPrev, next_setPrev,
        next_setNext_ne _ a j _ (Ne.symm hja)]

/-- After `HookList.remove a`, `a._next` is null (the removal clears it). -/
theorem listRemove_self_next (nodes : List HookNode) (l : HookList) (a : Nat)
    (ha : a < nodes.length) :
    (getNode (listRemove nodes l a).1 a).next = none := by
  have main : ∀ (m : List HookNode), m.length = nodes.length →
      (getNode (setNext (setPrev m a none) a none) a).next = none := by
    intro m hm
    exact next_setNext_self _ a none (by rw [length_setPrev]; omega)
  cases hp : (getNode nodes a).prev with
  | none =>
    cases hn : (getNode nodes a).next with
    | none => simpa only [listRemove, hp, hn] using main nodes rfl
    | some n => simpa only [listRemove, hp, hn] using main _ (by rw [length_setPrev])
  | some p =>
    cases hn : (getNode nodes a).next with
    | none => simpa only [listRemove, hp, hn] using main _ (by rw [length_setNext])
    | some n =>
      simpa only [listRemove, hp, hn] using main _ (by rw [length_setPrev, length_setNext])

/-! ## Helper lemmas: the S6 serialization queue never empties -/

/-- On the S6 arena the queue alternates between `[0]` and `[1]` forever, so
`serializeLoop` exhausts any fuel. -/
theorem s6_loop_stuck : ∀ (fuel : Nat) (out : List Nat),
    serializeLoop s6Arena fuel [0] out = none
    ∧ serializeLoop s6Arena fuel [1] out = none := by
  intro fuel
  induction fuel with
  | zero => intro out; exact ⟨rfl, rfl⟩
  | succ f ih =>
    intro out
    constructor
    · have hstep : serializeLoop s6Arena (f + 1) [0] out =
          serializeLoop s6Arena f [1] (out ++ [0]) := rfl
      rw [hstep]
      exact (ih (out ++ [0])).2
    · have hstep : serializeLoop s6Arena (f + 1) [1] out =
          serializeLoop s6Arena f [0] (out ++ [1]) := rfl
      rw [hstep]
      exact (ih (out ++ [1])).1

/-! ## Helper lemmas: module version-chain arena -/

theorem length_setCurrent (a : List ModuleVC) (i : Nat) (v : Option Nat) :
    (setCurrent a i v).length = a.length := by
  simp [setCurrent]

theorem length_setPrevious (a : List ModuleVC) (i : Nat) (v : Option Nat) :
    (setPrevious a i v).length = a.length := by
  simp [setPrevious]

theorem getVC_setCurrent_self (a : List ModuleVC) (i : Nat) (v : Option Nat)
    (h : i < a.length) :
    getVC (setCurrent a i v) i = { getVC a i with current := v } := by
  simp [getVC, setCurrent, List.getD_eq_getElem?_getD, List.getElem?_set_eq_of_lt _ h]

theorem getVC_setCurrent_ne (a : List ModuleVC) (i j : Nat) (v : Option Nat)
    (h : i ≠ j) :
    getVC (setCurrent a i v) j = getVC a j := by
  simp [getVC, setCurrent, List.getD_eq_getElem?_getD, List.getElem?_set_ne h]

theorem getVC_setPrevious_self (a : List ModuleVC) (i : Nat) (v : Option Nat)
    (h : i < a.length) :
    getVC (setPrevious a i v) i = { getVC a i with previous := v } := by
  simp [getVC, setPrevious, List.getD_eq_getElem?_getD, List.getElem?_set_eq_of_lt _ h]

theorem getVC_setPrevious_ne (a : List ModuleVC) (i j : Nat) (v : Option Nat)
    (h : i ≠ j) :
    getVC (setPrevious a i v) j = getVC a j := by
  simp [getVC, setPrevious, List.getD_eq_getElem?_getD, List.getElem?_set_ne h]

/-- A `previous` write never changes any `current` field. -/
theorem current_setPrevious (a : List ModuleVC) (i j : Nat) (v : Option Nat) :
    (getVC (setPrevious a i v) j).current = (getVC a j).current := by
  by_cases h : i = j
  · subst h
    by_cases hlt : i < a.length
    · simp [getVC, setPrevious, List.getD_eq_getElem?_getD, List.getElem?_set_eq_of_lt _ hlt]
    · have : a.set i { getVC a i with previous := v } = a :=
        List.set_eq_of_length_le (by omega)
      simp [setPrevious, this]
  · rw [getVC_setPrevious_ne a i j v h]

/-- A `current` write never changes any `previous` field. -/
theorem previous_setCurrent (a : List ModuleVC) (i j : Nat) (v : Option Nat) :
    (getVC (setCurrent a i v) j).previous = (getVC a j).previous := by
  by_cases h : i = j
  · subst h
    by_cases hlt : i < a.length
    · simp [getVC, setCurrent, List.getD_eq_getElem?_getD, List.getElem?_set_eq_of_lt _ hlt]
    · have : a.set i { getVC a i with current := v } = a :=
        List.set_eq_of_length_le (by omega)
      simp [setCurrent, this]
  · rw [getVC_setCurrent_ne a i j v h]

theorem getVC_append_left (a : List ModuleVC) (x : ModuleVC) (i : Nat)
    (h : i < a.length) :
    getVC (a ++ [x]) i = getVC a i := by
  simp [getVC, List.getD_eq_getElem?_getD, List.getElem?_append_left h]

theorem getVC_append_self (a : List ModuleVC) (x : ModuleVC) :
    getVC (a ++ [x]) a.length = x := by
  have : (a ++ [x])[a.length]? = some x := by
    rw [List.getElem?_append_right (Nat.le_refl _)]
    simp
  simp [getVC, List.getD_eq_getElem?_getD, this]

/-! ## Claim theorems -/

/-- Claim C1.  The claim states that `Hooks.register` orders hooks by
non-decreasing priority with ties in registration order, so that S5
(h1@100, h2@50, h3@100) runs as h2, h1, h3.  The code does not do this: on
the S5 registration sequence only h1 (id 0) runs — `insertAfter` assigns
`target._next` twice and never writes `obj._next`, so h2 never enters the
forward chain, and h3 is appended behind the unreachable h2 — even though the
list's `length` field counts all three hooks. -/
theorem register_s5_only_first_hook_runs :
    runHooks (fun _ => idHandler) 3 s5State () = (true, [0])
    ∧ (runHooks (fun _ => idHandler) 3 s5State ()).2 ≠ [1, 0, 2]
    ∧ s5State.list = some ⟨some 0, some 2, 3⟩ := by
  refine ⟨by decide, by decide, by decide⟩

/-- Claim C2.  The claim states that `deserialize(serialize(G), 0)` is
structurally equal to `G` for every valid graph, including one whose
`execute` literal redirects to the root.  The code fails twice on that very
graph: (1) `CommandGraph.serialize` has no visited set, so on the S6 graph
the traversal queue alternates between the root and the literal forever and
the serialization loop never terminates, whatever the fuel; (2) even on the
correctly serialized wire form of that graph, `_deserializeFinal` guards the
redirect rewrite with a JS truthiness test on the node index, so the redirect
to index 0 (the root) is dropped: the deserialized literal has
`hasRedirect = true` but `redirectNode = null`. -/
theorem serialize_redirect_root_diverges :
    (∀ fuel, serializeLoop s6Arena fuel [0] [] = none)
    ∧ (∀ fuel, serializeGraph s6Arena 0 fuel = none)
    ∧ (getCG (deserializeGraph s6Wire 0).1 1).flags.hasRedirect = true
    ∧ (getCG (deserializeGraph s6Wire 0).1 1).redirectNode = none := by
  refine ⟨fun fuel => (s6_loop_stuck fuel []).1,
    fun fuel => by simp [serializeGraph, (s6_loop_stuck fuel []).1],
    by decide, by decide⟩

/-- Claim C4.  The claim states that `ModuleRegistry.unload` fails on a
missing name and otherwise unloads via `on_unload(false)`, with the core
module failing its own invalid-state guard.  The code's guard is inverted:
`if (module.loaded) throw new Error('module is already unloaded')`, so
unloading any *loaded* module — core or not — throws the already-unloaded
error without ever reaching `_unload`; the core module's own
`Cannot unload the core module!` error is reachable only through the
nonsensical path of unloading an already-unloaded core module, while
`unload(reloading = true)` (the reload path) does succeed. -/
theorem registry_unload_guard_inverted :
    registryUnload [("core", c4CoreLoaded)] "core" = .error .alreadyUnloaded
    ∧ registryUnload [("m", c4Plain)] "m" = .error .alreadyUnloaded
    ∧ registryUnload [("core", { c4CoreLoaded with loaded := false })] "core" =
        .error .cannotUnloadCore
    ∧ moduleUnload c4CoreLoaded true =
        .ok { c4CoreLoaded with hooks := [], commands := [], loaded := false }
    ∧ registryUnload [("core", c4CoreLoaded)] "missing" = .error .noSuchModule := by
  exact ⟨rfl, rfl, rfl, rfl, rfl⟩

/-- Claim C6.  The claim states that `serialize` outputs every reachable node
exactly once, ignoring repeat encounters.  The traversal has no visited set:
on the arena whose node 3 is shared by parents 1 and 2, node 3 is enqueued
and emitted twice, so the output lists it at two indices and the serialized
array has five entries for four reachable nodes. -/
theorem serialize_shared_node_duplicated :
    serializeLoop c6Arena 10 [0] [] = some [0, 1, 2, 3, 3]
    ∧ ((serializeLoop c6Arena 10 [0] []).getD []).count 3 = 2
    ∧ ((serializeGraph c6Arena 0 10).getD []).length = 5 := by
  refine ⟨by decide, by decide, by decide⟩

/-- Claim C9: `to64BitNumber t` is exactly the high/low 32-bit split of a
53-bit timestamp: it equals `(t / 2^32, t mod 2^32)`, both halves fit in 32
bits, and reassembling them recovers `t` bit-identically. -/
theorem to64BitNumber_split (t : Nat) (h : t < 2 ^ 53) :
    to64BitNumber t = (t / 2 ^ 32, t % 2 ^ 32)
    ∧ 2 ^ 32 * (to64BitNumber t).1 + (to64BitNumber t).2 = t
    ∧ (to64BitNumber t).1 < 2 ^ 32 ∧ (to64BitNumber t).2 < 2 ^ 32 := by
  refine ⟨rfl, Nat.div_add_mod t (2 ^ 32), ?_, Nat.mod_lt _ (by norm_num)⟩
  have ht : t < 2 ^ 32 * 2 ^ 32 := lt_of_lt_of_le h (by norm_num)
  exact Nat.div_lt_of_lt_mul ht

/-- Witness for C9 at `t = 2 * 2^32 + 5`. -/
theorem to64BitNumber_split_witness :
    2 ^ 32 * (to64BitNumber 8589934597).1 + (to64BitNumber 8589934597).2 = 8589934597 :=
  (to64BitNumber_split 8589934597 (by norm_num)).2.1

/-- Claim C10: registering a descriptor whose lowercased name collides with a
registered command throws `command already exists`, leaves the commands map
untouched, and the only descriptor mutation already performed is the in-place
lowercasing of its `name` (the autocomplete prefix rewrite happens after the
duplicate check and is never reached). -/
theorem registerCommand_duplicate (pfx : String) (commands : List (String × CmdDescriptor))
    (d : CmdDescriptor) (h : (commands.lookup (jsToLowerCase d.name)).isSome) :
    registerCommand pfx commands d =
      { descriptor := { d with name := jsToLowerCase d.name }
        commands := commands
        threw := true } := by
  simp [registerCommand, h]

/-- Witness for C10: registering `"FOO"` over an existing `"foo"`. -/
theorem registerCommand_duplicate_witness :
    registerCommand "/p:" [("foo", ⟨"foo", none⟩)] ⟨"FOO", some "x"⟩ =
      { descriptor := ⟨"foo", some "x"⟩
        commands := [("foo", ⟨"foo", none⟩)]
        threw := true } := by
  have h := registerCommand_duplicate "/p:" [("foo", ⟨"foo", none⟩)] ⟨"FOO", some "x"⟩
    (by decide)
  simpa using h

/-- Claim C8: with the Command Registry unchanged, `updateCommandGraph` is
idempotent — the second application removes exactly the local nodes the first
one added and re-adds the same set, leaving the whole core-module state (in
particular `graph.root.children`) unchanged. -/
theorem updateCommandGraph_idempotent (pfx : String) (commands : List (Option Nat))
    (s : CoreModuleState) :
    updateCommandGraph pfx commands (updateCommandGraph pfx commands s) =
      updateCommandGraph pfx commands s := by
  cases hg : s.commandGraph with
  | none => simp [updateCommandGraph, hg]
  | some g =>
    simp only [updateCommandGraph, hg]
    simp [Finset.sdiff_union_self_eq_union, Finset.union_assoc, Finset.union_self]

/-- Claim C5: cancellation semantics of `runHooks`.  For handlers that leave
the hook structures alone and whose resulting action on a live event is
`acts i`: if every handler in the list continues, all run and the result is
`true`; the first handler to set `Cancel` ends the pass with `false` and no
later handler runs; the first to set `CancelHooks` ends the pass with `true`
and no later handler runs; an empty or absent list yields `true` with no
handler run. -/
theorem runHooks_cancellation_semantics {α : Type} (η : Nat → Handler α)
    (acts : Nat → EventAction) (s : HookState) (ids : List Nat) (d : α) (fuel : Nat)
    (hrep : Represents s ids) (hfuel : ids.length ≤ fuel)
    (hpres : ∀ i ∈ ids, ∀ (e : Event α) (st : HookState), (η i e st).1 = st)
    (hact : ∀ i ∈ ids, ∀ (e : Event α) (st : HookState),
      e.action = .Continue → ((η i e st).2).action = acts i) :
    ((∀ i ∈ ids, acts i = .Continue) → runHooks η fuel s d = (true, ids))
    ∧ (∀ pre j rest, ids = pre ++ j :: rest → (∀ i ∈ pre, acts i = .Continue) →
        acts j = .Cancel → runHooks η fuel s d = (false, pre ++ [j]))
    ∧ (∀ pre j rest, ids = pre ++ j :: rest → (∀ i ∈ pre, acts i = .Continue) →
        acts j = .CancelHooks → runHooks η fuel s d = (true, pre ++ [j]))
    ∧ (ids = [] → runHooks η fuel s d = (true, []))
    ∧ (∀ s' : HookState, s'.list = none → runHooks η fuel s' d = (true, [])) := by
  obtain ⟨l, hl, hch⟩ := hrep
  refine ⟨?_, ?_, ?_, ?_, ?_⟩
  · intro hall
    rw [runHooks_some η fuel s l d hl,
      runLoop_all_continue η ids s fuel l.head _ [] hch hfuel rfl hpres
        (fun i hi e st he => by rw [hact i hi e st he]; exact hall i hi)]
    simp
  · intro pre j rest hids hpre hj
    subst hids
    rw [runHooks_some η fuel s l d hl,
      runLoop_stops η .Cancel pre j rest s fuel l.head _ [] hch hfuel rfl (by decide)
        (fun i hi e st => hpres i (by simp [hi]) e st)
        (fun i hi e st he => by
          rw [hact i (by simp [hi]) e st he]; exact hpre i hi)
        (fun e st => hpres j (by simp) e st)
        (fun e st he => by rw [hact j (by simp) e st he]; exact hj)]
    simp
  · intro pre j rest hids hpre hj
    subst hids
    rw [runHooks_some η fuel s l d hl,
      runLoop_stops η .CancelHooks pre j rest s fuel l.head _ [] hch hfuel rfl (by decide)
        (fun i hi e st => hpres i (by simp [hi]) e st)
        (fun i hi e st he => by
          rw [hact i (by simp [hi]) e st he]; exact hpre i hi)
        (fun e st => hpres j (by simp) e st)
        (fun e st he => by rw [hact j (by simp) e st he]; exact hj)]
    simp
  · intro hids
    subst hids
    have hhead : l.head = none := hch
    rw [runHooks_some η fuel s l d hl, hhead, runLoop_none]
  · intro s' hs'
    simp [runHooks, hs']

/-- Witness for C5: on the list 0 → 1 → 2 where hook 1 sets `Cancel`, the
run returns `false` and hook 2 never runs. -/
theorem runHooks_cancellation_semantics_witness :
    runHooks c5Eta 3 chain3State () = (false, [0, 1]) := by
  have h := runHooks_cancellation_semantics c5Eta c5Acts chain3State [0, 1, 2] () 3
    ⟨⟨some 0, some 2, 3⟩, rfl, ⟨rfl, rfl, rfl, rfl⟩⟩ (by decide)
    (fun i _ e st => rfl) (fun i _ e st _ => rfl)
  exact h.2.1 [0] 1 [2] rfl (by intro i hi; simp at hi; subst hi; rfl) rfl

/-- Claim C3 counterexample.  The claim asserts that the next pointer is
captured before the handler runs, so a hook that unregisters itself does not
stop the traversal (`h_{k+1}` still runs).  On the two-hook list 0 → 1 with
hook 0 unregistering itself, the loop update `hook = hook?._next` reads hook
0's `_next` after `remove` nulled it: the pass ends after hook 0 and hook 1
never runs. -/
theorem runHooks_self_unregister_stops_cex :
    runHooks c3Eta 2 c3State () = (true, [0])
    ∧ 1 ∉ (runHooks c3Eta 2 c3State ()).2 := by
  refine ⟨by decide, by decide⟩

/-- One traversal step whose handler rewrites the state but hands the event
back unchanged. -/
theorem runLoop_step_handler {α : Type} (η : Nat → Handler α) (f : Nat)
    (s s' : HookState) (i : Nat) (e : Event α) (tr : List Nat)
    (hstep : η i e s = (s', e)) (hact : e.action = .Continue) :
    runLoop η (f + 1) s (some i) e tr =
      runLoop η f s' (getNode s'.nodes i).next e (tr ++ [i]) := by
  rw [runLoop_cons, hstep]
  simp [hact]

/-- Claim C3, amended: `runHooks` reads the next pointer after each handler
executes.  Consequently (first part) a handler that unregisters its successor
causes exactly that successor to be skipped — every hook before it and every
hook after it still runs in the same pass — while (second part) a handler
that unregisters its own hook ends the pass: the hooks after it do not run. -/
theorem runHooks_unregister_during_traversal {α : Type} (d : α) :
    (∀ (s : HookState) (η : Nat → Handler α) (pre rest : List Nat) (a b : Nat) (fuel : Nat),
      Represents s (pre ++ a :: b :: rest) →
      (pre ++ a :: b :: rest).Nodup →
      (pre ++ a :: b :: rest).length ≤ fuel →
      a < s.nodes.length →
      (getNode s.nodes b).prev = some a →
      (∀ (e : Event α) (st : HookState), η a e st = (unregisterHook st b, e)) →
      (∀ i, i ≠ a → ∀ (e : Event α) (st : HookState), η i e st = (st, e)) →
      runHooks η fuel s d = (true, pre ++ a :: rest))
    ∧
    (∀ (s : HookState) (η : Nat → Handler α) (pre rest : List Nat) (a : Nat) (fuel : Nat),
      Represents s (pre ++ a :: rest) →
      (pre ++ a :: rest).Nodup →
      (pre ++ a :: rest).length ≤ fuel →
      a < s.nodes.length →
      (∀ (e : Event α) (st : HookState), η a e st = (unregisterHook st a, e)) →
      (∀ i, i ≠ a → ∀ (e : Event α) (st : HookState), η i e st = (st, e)) →
      runHooks η fuel s d = (true, pre ++ [a])) := by
  constructor
  · intro s η pre rest a b fuel hrep hnodup hfuel ha hbprev ηa ηother
    obtain ⟨l, hl, hch⟩ := hrep
    -- distinctness facts
    have hdisj : pre.Disjoint (a :: b :: rest) := (List.nodup_append.mp hnodup).2.2
    have hsuf : (a :: b :: rest).Nodup := hnodup.of_append_right
    have hanotin : a ∉ b :: rest := (List.nodup_cons.mp hsuf).1
    have hab : a ≠ b := fun hEq => hanotin (by simp [hEq])
    have hanotrest : a ∉ rest := fun hmem => hanotin (by simp [hmem])
    have hbnotrest : b ∉ rest := (List.nodup_cons.mp (List.nodup_cons.mp hsuf).2).1
    -- consume the identity-handler prefix
    obtain ⟨cur', hch', heq⟩ := runLoop_id_prefix η pre (a :: b :: rest) s l.head
      { action := .Continue, data := d } [] hch rfl
      (fun i hi e st => ηother i (fun hEq => hdisj hi (by simp [hEq])) e st)
    rw [runHooks_some η fuel s l d hl]
    have hfuel' : pre.length + (fuel - pre.length) = fuel := by
      simp [List.length_append] at hfuel
      omega
    rw [← hfuel', heq (fuel - pre.length)]
    obtain ⟨hcur', hbch⟩ := hch'
    obtain ⟨hnextab, hrestch⟩ := hbch
    subst hcur'
    obtain ⟨f', hf'⟩ : ∃ f', fuel - pre.length = f' + 1 :=
      ⟨fuel - pre.length - 1, by simp [List.length_append] at hfuel; omega⟩
    rw [hf', runLoop_step_handler η f' s (unregisterHook s b) a _ _ (ηa _ s) rfl]
    -- the state after hook a's handler removed b
    have hunreg : unregisterHook s b =
        ⟨(listRemove s.nodes l b).1, some (listRemove s.nodes l b).2⟩ := by
      simp [unregisterHook, hl]
    obtain ⟨hfact1, hfact2⟩ := listRemove_next_facts s.nodes l a b ha hab hbprev
    have hcur2 : (getNode (unregisterHook s b).nodes a).next = (getNode s.nodes b).next := by
      rw [hunreg]; exact hfact1
    have hchain2 : FwdChain (unregisterHook s b).nodes
        (getNode (unregisterHook s b).nodes a).next rest := by
      rw [hcur2, hunreg]
      exact fwdChain_congr s.nodes (listRemove s.nodes l b).1 rest
        (fun j hj => hfact2 j (fun hEq => hanotrest (hEq ▸ hj))
          (fun hEq => hbnotrest (hEq ▸ hj))) _ hrestch
    rw [runLoop_all_continue η rest (unregisterHook s b) f' _ _ _ hchain2
      (by simp [List.length_append] at hfuel; omega) rfl
      (fun j hj e st => by rw [ηother j (fun hEq => hanotrest (hEq ▸ hj)) e st])
      (fun j hj e st he => by rw [ηother j (fun hEq => hanotrest (hEq ▸ hj)) e st]; exact he)]
    simp
  · intro s η pre rest a fuel hrep hnodup hfuel ha ηa ηother
    obtain ⟨l, hl, hch⟩ := hrep
    have hdisj : pre.Disjoint (a :: rest) := (List.nodup_append.mp hnodup).2.2
    obtain ⟨cur', hch', heq⟩ := runLoop_id_prefix η pre (a :: rest) s l.head
      { action := .Continue, data := d } [] hch rfl
      (fun i hi e st => ηother i (fun hEq => hdisj hi (by simp [hEq])) e st)
    rw [runHooks_some η fuel s l d hl]
    have hfuel' : pre.length + (fuel - pre.length) = fuel := by
      simp [List.length_append] at hfuel
      omega
    rw [← hfuel', heq (fuel - pre.length)]
    obtain ⟨hcur', hrestch⟩ := hch'
    subst hcur'
    obtain ⟨f', hf'⟩ : ∃ f', fuel - pre.length = f' + 1 :=
      ⟨fuel - pre.length - 1, by simp [List.length_append] at hfuel; omega⟩
    rw [hf', runLoop_step_handler η f' s (unregisterHook s a) a _ _ (ηa _ s) rfl]
    have hunreg : unregisterHook s a =
        ⟨(listRemove s.nodes l a).1, some (listRemove s.nodes l a).2⟩ := by
      simp [unregisterHook, hl]
    have hcur2 : (getNode (unregisterHook s a).nodes a).next = none := by
      rw [hunreg]; exact listRemove_self_next s.nodes l a ha
    rw [hcur2, runLoop_none]
    simp

/-- Witness for the amended C3 on the list 0 → 1 → 2: hook 0 unregisters
hook 1, so hook 1 is skipped while hook 2 still runs (first part), and on the
list 0 → 1 with hook 0 unregistering itself the pass ends after hook 0
(second part). -/
theorem runHooks_unregister_during_traversal_witness :
    runHooks c3wEta 3 chain3State () = (true, [0, 2])
    ∧ runHooks c3Eta 2 c3State () = (true, [0]) := by
  constructor
  · exact (runHooks_unregister_during_traversal ()).1 chain3State c3wEta [] [2] 0 1 3
      ⟨⟨some 0, some 2, 3⟩, rfl, ⟨rfl, rfl, rfl, rfl⟩⟩ (by decide) (by decide) (by decide)
      rfl (fun e st => rfl)
      (fun i hi e st => by
        simp only [c3wEta, if_neg hi, idHandler])
  · exact (runHooks_unregister_during_traversal ()).2 c3State c3Eta [] [1] 0 2
      ⟨⟨some 0, some 1, 2⟩, rfl, ⟨rfl, rfl, rfl⟩⟩ (by decide) (by decide) (by decide)
      (fun e st => rfl)
      (fun i hi e st => by
        simp only [c3Eta, if_neg hi, idHandler])

/-- Claim C7: after every `reload` of module `old` producing `new`,
`old.current == new`, `new.previous == old`, and when `old.previous` was some
`P`, `P.current == new` and `old.previous == null`; consequently reloading a
module three times (M0 → M1 → M2 → M3) leaves `M1.previous == null`, so no
previous-chain longer than two links survives. -/
theorem reload_version_chain (arena : List ModuleVC) (old : Nat)
    (hold : old < arena.length)
    (hprev : ∀ p, (getVC arena old).previous = some p → p < arena.length) :
    ((getVC (reloadBookkeeping arena old).1 old).current = some arena.length
      ∧ (getVC (reloadBookkeeping arena old).1 arena.length).previous = some old
      ∧ (reloadBookkeeping arena old).2 = arena.length
      ∧ (∀ p, (getVC arena old).previous = some p →
          (getVC (reloadBookkeeping arena old).1 p).current = some arena.length
          ∧ (getVC (reloadBookkeeping arena old).1 old).previous = none))
    ∧ (getVC (reloadBookkeeping
          (reloadBookkeeping (reloadBookkeeping [⟨none, none⟩] 0).1
            (reloadBookkeeping [⟨none, none⟩] 0).2).1
          (reloadBookkeeping (reloadBookkeeping [⟨none, none⟩] 0).1
            (reloadBookkeeping [⟨none, none⟩] 0).2).2).1 1).previous = none := by
  refine ⟨?_, by decide⟩
  have hscrut : (getVC (setCurrent (arena ++ [⟨none, none⟩]) old (some arena.length))
      old).previous = (getVC arena old).previous := by
    rw [previous_setCurrent, getVC_append_left _ _ _ hold]
  cases hp : (getVC arena old).previous with
  | none =>
    simp only [reloadBookkeeping, hscrut, hp]
    refine ⟨?_, ?_, trivial, ?_⟩
    · rw [current_setPrevious, getVC_setCurrent_self _ _ _ (by simp; omega)]
    · rw [getVC_setPrevious_self _ _ _ (by simp [length_setCurrent])]
    · intro q hq
      exact absurd hq (by simp)
  | some p =>
    have hplt : p < arena.length := hprev p hp
    simp only [reloadBookkeeping, hscrut, hp]
    refine ⟨?_, ?_, trivial, ?_⟩
    · rw [current_setPrevious, current_setPrevious]
      by_cases hpo : p = old
      · subst hpo
        rw [getVC_setCurrent_self _ _ _ (by rw [length_setCurrent]; simp; omega)]
      · rw [getVC_setCurrent_ne _ _ _ _ hpo,
          getVC_setCurrent_self _ _ _ (by simp; omega)]
    · rw [getVC_setPrevious_self _ _ _
        (by rw [length_setPrevious, length_setCurrent, length_setCurrent]; simp)]
    · intro q hq
      have hqp : p = q := Option.some_inj.mp hq
      subst hqp
      constructor
      · rw [getVC_setPrevious_ne _ _ _ _ (by omega), current_setPrevious,
          getVC_setCurrent_self _ _ _ (by rw [length_setCurrent]; simp; omega)]
      · rw [getVC_setPrevious_ne _ _ _ _ (by omega),
          getVC_setPrevious_self _ _ _ (by rw [length_setCurrent, length_setCurrent]; simp; omega)]

/-- Witness for C7: a two-module arena where module 1 (whose `previous` is
module 0) is reloaded into module 2. -/
theorem reload_version_chain_witness :
    (getVC (reloadBookkeeping [⟨none, none⟩, ⟨none, some 0⟩] 1).1 0).current = some 2
    ∧ (getVC (reloadBookkeeping [⟨none, none⟩, ⟨none, some 0⟩] 1).1 1).previous = none
    ∧ (getVC (reloadBookkeeping [⟨none, none⟩, ⟨none, some 0⟩] 1).1 2).previous = some 1 := by
  have h := reload_version_chain [⟨none, none⟩, ⟨none, some 0⟩] 1 (by decide)
    (by
      intro p hp
      have h0 : some 0 = some p := hp
      have h1 : 0 = p := Option.some_inj.mp h0
      simp only [List.length_cons, List.length_nil]
      omega)
  exact ⟨(h.1.2.2.2 0 rfl).1, (h.1.2.2.2 0 rfl).2, h.1.2.1⟩

end MCProxy
